import Mathlib

/-! bstrlib C++ wrapper: bounds-checked and write-protected character access

A shallow embedding of the character accessors of `bstrwrap.h`
(`CBString::character`, `CBString::operator []`, `CBCharWriteProtected`),
of the range iterator `UtfForRangeIter` and of `std::hash<CBString>`
(`util.inl`), with the properties proved about them.

Conventions of the embedding.

* A `char` and an `unsigned char` are both represented by their bit pattern,
  a value in `0 .. 255`; the casts between the two are the identity.
* An `int` is an `Int` in the range of `isInt`; the cast `(unsigned) x` is
  `toUnsigned x`, the residue modulo `2 ^ 32`.
* `data` points to a block of bytes, represented by the list of its bytes.
  Indexing `data` outside that block is undefined behaviour and is reported
  as `Outcome.fault`.
* The two settings of the exception switch are the two values of `Policy`.
* Every operation that touches `data` returns a `Run`: its outcome, the
  buffer afterwards and the list of accesses made to `data`, in order.
-/

namespace Bstrlib

/-- Bit pattern of a `char` or an `unsigned char`. -/
abbrev Byte := Fin 256

/-- Modelled from the spec: the struct `tagbstring` is declared in `bstrlib.h`,
which is not among the sources. The fields are the three that `bstrwrap.h`
uses, matching the spec's ByteBuffer: `mlen` is the capacity (the buffer is
write-protected when `mlen <= 0`), `slen` the length and `data` the bytes. -/
structure tagbstring where
  mlen : Int
  slen : Int
  data : List Byte
deriving DecidableEq, Repr

/-- The class `CBString` derives from `tagbstring`; the accessors only use the
inherited fields. -/
abbrev CBString := tagbstring

/-- The exception switch: `BSTRLIB_THROWS_EXCEPTIONS` (the default) or
`BSTRLIB_DOESNT_THROW_EXCEPTIONS`. -/
inductive Policy where
  | throws
  | doesntThrow
deriving DecidableEq, Repr

/-- How an operation ends: a normal return, a `CBStringException` carrying the
message `what ()`, or undefined behaviour (`data` indexed outside its block). -/
inductive Outcome (α : Type) where
  | ok (v : α)
  | thrown (msg : String)
  | fault
deriving DecidableEq, Repr

/-- One access `data[off]`. -/
inductive Access where
  | read (off : Int)
  | write (off : Int)
deriving DecidableEq, Repr

/-- The offset of an access. -/
def Access.off : Access → Int
  | .read o => o
  | .write o => o

/-- Whether the access is a store. -/
def Access.isWrite : Access → Bool
  | .read _ => false
  | .write _ => true

/-- Result of running an operation on a buffer. -/
structure Run (α : Type) where
  outcome : Outcome α
  s : tagbstring
  trace : List Access
deriving DecidableEq, Repr

/-- Every access of the run is at an offset in `[0, slen)`. -/
def Run.withinLength {α : Type} (r : Run α) (slen : Int) : Prop :=
  ∀ a ∈ r.trace, 0 ≤ a.off ∧ a.off < slen

instance {α : Type} (r : Run α) (slen : Int) : Decidable (r.withinLength slen) := by
  unfold Run.withinLength; infer_instance

/-- Range of the type `int`. -/
def isInt (x : Int) : Prop := -2147483648 ≤ x ∧ x ≤ 2147483647

instance (x : Int) : Decidable (isInt x) := by
  unfold isInt; infer_instance

/-- The cast `(unsigned) x` of an `int`. -/
def toUnsigned (x : Int) : Nat := (x % 4294967296).toNat

/-- The macro `bstringThrow (er)`: under `throws` it raises the exception with
message `"CBString::" er ""`, under `doesntThrow` it expands to `{}`. -/
def bstringThrow (p : Policy) (er : String) : Option String :=
  match p with
  | .throws => some ("CBString::" ++ er)
  | .doesntThrow => none

/-- The load `data[off]` for an `int` or `unsigned` offset. -/
def tagbstring.load (s : tagbstring) (off : Int) : Option Byte :=
  if off < 0 then none else s.data[off.toNat]?

/-- The store `data[off] = c`. -/
def tagbstring.store (s : tagbstring) (off : Nat) (c : Byte) : Option tagbstring :=
  if off < s.data.length then some { s with data := s.data.set off c } else none

/-- The statement `return data[off];`, after the accesses `tr`. -/
def tagbstring.ret (s : tagbstring) (off : Int) (tr : List Access) : Run Byte :=
  match s.load off with
  | some b => ⟨.ok b, s, tr ++ [.read off]⟩
  | none => ⟨.fault, s, tr ++ [.read off]⟩

/-- The proxy `CBCharWriteProtected`: the reference `s` is passed to each
operation as the current buffer, `idx` is the stored index. -/
structure CBCharWriteProtected where
  idx : Nat
deriving DecidableEq, Repr

/-- The constructor `CBCharWriteProtected (const struct tagbstring& c, int i)`. -/
def CBCharWriteProtected.new (p : Policy) (c : tagbstring) (i : Int) :
    Outcome CBCharWriteProtected :=
  let idx := toUnsigned i
  if idx ≥ toUnsigned c.slen then
    match bstringThrow p "character index out of bounds" with
    | some e => .thrown e
    | none => .ok ⟨idx⟩
  else .ok ⟨idx⟩

/-- The operator `char operator = (char c)`. -/
def CBCharWriteProtected.assign_char (p : Policy) (a : CBCharWriteProtected)
    (s : tagbstring) (c : Byte) : Run Byte :=
  if s.mlen ≤ 0 then
    match bstringThrow p "Write protection error" with
    | some e => ⟨.thrown e, s, []⟩
    | none => s.ret a.idx []
  else
    if p = .doesntThrow ∧ a.idx ≥ toUnsigned s.slen then ⟨.ok 0, s, []⟩
    else
      match s.store a.idx c with
      | none => ⟨.fault, s, [.write a.idx]⟩
      | some s1 => s1.ret a.idx [.write a.idx]

/-- The operator `unsigned char operator = (unsigned char c)`. -/
def CBCharWriteProtected.assign_uchar (p : Policy) (a : CBCharWriteProtected)
    (s : tagbstring) (c : Byte) : Run Byte :=
  if s.mlen ≤ 0 then
    match bstringThrow p "Write protection error" with
    | some e => ⟨.thrown e, s, []⟩
    | none => s.ret a.idx []
  else
    if p = .doesntThrow ∧ a.idx ≥ toUnsigned s.slen then ⟨.ok 0, s, []⟩
    else
      match s.store a.idx c with
      | none => ⟨.fault, s, [.write a.idx]⟩
      | some s1 => s1.ret a.idx [.write a.idx]

/-- The conversion `operator unsigned char () const`. -/
def CBCharWriteProtected.to_uchar (p : Policy) (a : CBCharWriteProtected)
    (s : tagbstring) : Run Byte :=
  if p = .doesntThrow ∧ a.idx ≥ toUnsigned s.slen then ⟨.ok 0, s, []⟩
  else s.ret a.idx []

/-- The accessor `int length () const`. -/
def CBString.length (s : CBString) : Int := s.slen

/-- The accessor `bool iswriteprotected () const`. -/
def CBString.iswriteprotected (s : CBString) : Bool := decide (s.mlen ≤ 0)

/-- The accessor `unsigned char character (int i) const`. -/
def CBString.character_const (p : Policy) (s : CBString) (i : Int) : Run Byte :=
  if toUnsigned i ≥ toUnsigned s.slen then
    match p with
    | .throws =>
      match bstringThrow p "character idx out of bounds" with
      | some e => ⟨.thrown e, s, []⟩
      | none => s.ret i []
    | .doesntThrow => ⟨.ok 0, s, []⟩
  else s.ret i []

/-- The operator `unsigned char operator [] (int i) const`. -/
def CBString.index_const (p : Policy) (s : CBString) (i : Int) : Run Byte :=
  CBString.character_const p s i

/-- The accessor `CBCharWriteProtected character (int i)`. -/
def CBString.character (p : Policy) (s : CBString) (i : Int) :
    Outcome CBCharWriteProtected :=
  CBCharWriteProtected.new p s i

/-- The operator `CBCharWriteProtected operator [] (int i)`. -/
def CBString.index (p : Policy) (s : CBString) (i : Int) :
    Outcome CBCharWriteProtected :=
  CBString.character p s i

/-- The expression `s[i]` on a non-const string read as an `unsigned char`:
the proxy is built, then converted. -/
def CBString.read_at (p : Policy) (s : CBString) (i : Int) : Run Byte :=
  match CBString.index p s i with
  | .ok a => a.to_uchar p s
  | .thrown e => ⟨.thrown e, s, []⟩
  | .fault => ⟨.fault, s, []⟩

/-- The expression `s[i] = c` with `c` a `char`: the proxy is built, then
assigned to. -/
def CBString.assign_at_char (p : Policy) (s : CBString) (i : Int) (c : Byte) :
    Run Byte :=
  match CBString.index p s i with
  | .ok a => a.assign_char p s c
  | .thrown e => ⟨.thrown e, s, []⟩
  | .fault => ⟨.fault, s, []⟩

/-- The expression `s[i] = c` with `c` an `unsigned char`. -/
def CBString.assign_at_uchar (p : Policy) (s : CBString) (i : Int) (c : Byte) :
    Run Byte :=
  match CBString.index p s i with
  | .ok a => a.assign_uchar p s c
  | .thrown e => ⟨.thrown e, s, []⟩
  | .fault => ⟨.fault, s, []⟩

/-- Message of the bounds error raised by the const accessor. -/
def errIdx : String := "CBString::character idx out of bounds"

/-- Message of the bounds error raised by the proxy constructor. -/
def errIndex : String := "CBString::character index out of bounds"

/-- Message of the write-protection error. -/
def errWrite : String := "CBString::Write protection error"

/-! ## The hash of `util.inl` -/

/-- The constructor `std::string (const char*)` applied to `data`: the bytes
before the first zero byte. When the block holds no zero byte the scan runs off
the block, which is undefined behaviour (`none`). -/
def cstring : List Byte → Option (List Byte)
  | [] => none
  | b :: rest => if b = 0 then some [] else (cstring rest).map (fun ss => b :: ss)

/-- The call `std::hash<bst::str>::operator() (s)`. The library function
`std::hash<std::string>` is the parameter `strHash`. -/
def CBString.hash (strHash : List Byte → Nat) (s : CBString) : Outcome Nat :=
  match cstring s.data with
  | some ss => .ok (strHash ss)
  | none => .fault

/-- A sample string hash, used to instantiate `strHash` on concrete inputs. -/
def sampleHash (l : List Byte) : Nat :=
  l.foldl (fun h b => (h * 31 + b.val) % 18446744073709551616) 7

/-! ## The range iterator -/

/-- A continuation byte `10xxxxxx`. -/
def isContinuation (b : Byte) : Bool := decide (128 ≤ b.val) && decide (b.val < 192)

/-- The continuation byte at `off`, if there is one within the buffer. -/
def continuationAt (buf : List Byte) (off : Nat) : Option Nat :=
  match buf[off]? with
  | some b => if isContinuation b then some (b.val % 64) else none
  | none => none

/-- Modelled from the spec: the decoder behind `utf8Iterator` (`buniutil.h`,
`utf8util`) is not among the sources. Section 4.3: strict UTF-8 decoding of one
code point at a byte offset, giving the code point and the number of bytes
consumed; overlong encodings, a continuation byte in leading position,
sequences that would read past the length, surrogates `0xD800 .. 0xDFFF` and
values above `0x10FFFF` are violations (`none`). -/
def decodeStrict (buf : List Byte) (off : Nat) : Option (Nat × Nat) :=
  match buf[off]? with
  | none => none
  | some b0 =>
    if b0.val < 128 then some (b0.val, 1)
    else if b0.val < 192 then none
    else if b0.val < 224 then
      match continuationAt buf (off + 1) with
      | some c1 =>
        let cp := (b0.val % 32) * 64 + c1
        if cp < 128 then none else some (cp, 2)
      | none => none
    else if b0.val < 240 then
      match continuationAt buf (off + 1), continuationAt buf (off + 2) with
      | some c1, some c2 =>
        let cp := (b0.val % 16) * 4096 + c1 * 64 + c2
        if cp < 2048 then none
        else if 55296 ≤ cp ∧ cp ≤ 57343 then none
        else some (cp, 3)
      | _, _ => none
    else if b0.val < 248 then
      match continuationAt buf (off + 1), continuationAt buf (off + 2),
          continuationAt buf (off + 3) with
      | some c1, some c2, some c3 =>
        let cp := (b0.val % 8) * 262144 + c1 * 4096 + c2 * 64 + c3
        if cp < 65536 then none
        else if 1114111 < cp then none
        else some (cp, 4)
      | _, _, _ => none
    else none

/-- Modelled from the spec: section 4.3, "on any violation, returns the error
code point and a consumed length of 1". The constant `errCh` is declared
`extern` in `bstrwrap.h` and is a parameter here. -/
def decode (errCh : Nat) (buf : List Byte) (off : Nat) : Nat × Nat :=
  match decodeStrict buf off with
  | some r => r
  | none => (errCh, 1)

/-- Modelled from the spec: the members of `UtfForRangeIter` are defined outside
the sources at hand. Section 4.4: the states of the sequential iterator are
Active (byte position, pending code point) and End. -/
inductive UtfForRangeIter where
  | Active (byte_position : Nat) (pending_char : Nat)
  | End
deriving DecidableEq, Repr

/-- The bytes of the string: the first `slen` bytes of `data`. -/
def CBString.bytes (s : CBString) : List Byte := s.data.take s.slen.toNat

/-- Modelled from the spec: `CBString::begin ()` is defined outside the sources
at hand. Section 4.4: "Initial state: Active at byte 0 with the first decoded
code point (or End immediately if the buffer is empty)". -/
def CBString.begin (errCh : Nat) (s : CBString) : UtfForRangeIter :=
  if s.bytes.length = 0 then .End else .Active 0 (decode errCh s.bytes 0).1

/-- Modelled from the spec: `CBString::end ()` is defined outside the sources at
hand; it is the end sentinel of section 4.4. -/
def CBString.end_ (_s : CBString) : UtfForRangeIter := .End

/-- Modelled from the spec: `UtfForRangeIter::operator ++` is defined outside
the sources at hand. Section 4.4: "decode at byte_position +
consumed_bytes_of_previous; if the new position >= buffer length, transition to
End; else remain Active with updated position and pending_char". The spec gives
no transition out of End, which is kept. -/
def UtfForRangeIter.advance (errCh : Nat) (s : CBString) : UtfForRangeIter → UtfForRangeIter
  | .Active pos _ =>
    let npos := pos + (decode errCh s.bytes pos).2
    if npos ≥ s.bytes.length then .End else .Active npos (decode errCh s.bytes npos).1
  | .End => .End

/-- Modelled from the spec: `UtfForRangeIter::operator !=` is defined outside
the sources at hand. Section 4.4: two iterators over the same buffer are equal
iff both are End, or both are Active at the same byte position. -/
def UtfForRangeIter.ne : UtfForRangeIter → UtfForRangeIter → Bool
  | .End, .End => false
  | .Active p _, .Active q _ => decide (p ≠ q)
  | _, _ => true

/-- The iterator after `k` applications of `operator ++`. -/
def UtfForRangeIter.advanceN (errCh : Nat) (s : CBString) :
    Nat → UtfForRangeIter → UtfForRangeIter
  | 0, it => it
  | k + 1, it => UtfForRangeIter.advanceN errCh s k (UtfForRangeIter.advance errCh s it)

/-! ## Arithmetic of the unsigned comparison -/

theorem toUnsigned_oob_iff (i n : Int) (hi : isInt i) (hn : 0 ≤ n) (hn2 : isInt n) :
    toUnsigned i ≥ toUnsigned n ↔ ¬ (0 ≤ i ∧ i < n) := by
  unfold toUnsigned isInt at *
  omega

theorem toUnsigned_cast (i : Int) (hi : isInt i) (h0 : 0 ≤ i) :
    ((toUnsigned i : Nat) : Int) = i := by
  unfold toUnsigned isInt at *
  omega

theorem load_cast (s : tagbstring) (k : Nat) : s.load (k : Int) = s.data[k]? := by
  simp [tagbstring.load]

theorem load_some (s : tagbstring) (i : Int) (h0 : 0 ≤ i) (h1 : i < s.slen)
    (hd : s.slen ≤ s.data.length) :
    ∃ b, s.data[i.toNat]? = some b ∧ s.load i = some b := by
  have hlt : i.toNat < s.data.length := by omega
  refine ⟨s.data[i.toNat], List.getElem?_eq_getElem hlt, ?_⟩
  simp [tagbstring.load, h0, List.getElem?_eq_getElem hlt]

/-! ## Reads -/

theorem character_const_in (p : Policy) (s : CBString) (i : Int) (hi : isInt i)
    (hn : 0 ≤ s.slen) (hn2 : isInt s.slen) (h0 : 0 ≤ i) (h1 : i < s.slen) :
    CBString.character_const p s i = s.ret i [] := by
  have h := toUnsigned_oob_iff i s.slen hi hn hn2
  have h2 : ¬ (toUnsigned i ≥ toUnsigned s.slen) := by
    intro hc; exact (h.mp hc) ⟨h0, h1⟩
  simp only [CBString.character_const, if_neg h2]

theorem new_in (p : Policy) (s : CBString) (i : Int) (hi : isInt i)
    (hn : 0 ≤ s.slen) (hn2 : isInt s.slen) (h0 : 0 ≤ i) (h1 : i < s.slen) :
    CBCharWriteProtected.new p s i = .ok ⟨toUnsigned i⟩ := by
  have h := toUnsigned_oob_iff i s.slen hi hn hn2
  have h2 : ¬ (toUnsigned i ≥ toUnsigned s.slen) := by
    intro hc; exact (h.mp hc) ⟨h0, h1⟩
  simp only [CBCharWriteProtected.new, if_neg h2]

theorem new_doesntThrow (s : CBString) (i : Int) :
    CBCharWriteProtected.new .doesntThrow s i = .ok ⟨toUnsigned i⟩ := by
  simp only [CBCharWriteProtected.new, bstringThrow]
  split <;> rfl

theorem new_throws_out (s : CBString) (i : Int) (hi : isInt i)
    (hn : 0 ≤ s.slen) (hn2 : isInt s.slen) (h : ¬ (0 ≤ i ∧ i < s.slen)) :
    CBCharWriteProtected.new .throws s i = .thrown errIndex := by
  have h2 : toUnsigned i ≥ toUnsigned s.slen :=
    (toUnsigned_oob_iff i s.slen hi hn hn2).mpr h
  simp only [CBCharWriteProtected.new, if_pos h2, bstringThrow]
  rfl

theorem read_at_in (p : Policy) (s : CBString) (i : Int) (hi : isInt i)
    (hn : 0 ≤ s.slen) (hn2 : isInt s.slen) (h0 : 0 ≤ i) (h1 : i < s.slen) :
    CBString.read_at p s i = s.ret i [] := by
  have h := toUnsigned_oob_iff i s.slen hi hn hn2
  have h2 : ¬ (toUnsigned i ≥ toUnsigned s.slen) := by
    intro hc; exact (h.mp hc) ⟨h0, h1⟩
  have h3 : ¬ (p = Policy.doesntThrow ∧ toUnsigned i ≥ toUnsigned s.slen) :=
    fun hc => h2 hc.2
  simp only [CBString.read_at, CBString.index, CBString.character,
    new_in p s i hi hn hn2 h0 h1, CBCharWriteProtected.to_uchar, if_neg h3,
    toUnsigned_cast i hi h0]

theorem ret_in (s : tagbstring) (i : Int) (h0 : 0 ≤ i) (h1 : i < s.slen)
    (hd : s.slen ≤ s.data.length) (tr : List Access) :
    ∃ b, s.data[i.toNat]? = some b ∧ s.ret i tr = ⟨.ok b, s, tr ++ [.read i]⟩ := by
  obtain ⟨b, hb, hl⟩ := load_some s i h0 h1 hd
  exact ⟨b, hb, by simp only [tagbstring.ret, hl]⟩

/-- C1: under the fail-fast policy, on a buffer of length `n >= 0`, a byte read
at the `int` index `i` (the const `character (i)`, the const `operator []` and
the read through the proxy built by the non-const `character (i)`) succeeds iff
`0 <= i < n`; when it succeeds it returns `data[i]`, and otherwise (also for
every negative `i`) the index-out-of-bounds exception is raised. -/
theorem C1_read_succeeds_iff_in_bounds (s : CBString) (i : Int) (hi : isInt i)
    (hn : 0 ≤ s.slen) (hn2 : isInt s.slen) (hd : s.slen ≤ s.data.length) :
    (((∃ b, (CBString.character_const .throws s i).outcome = .ok b) ↔ (0 ≤ i ∧ i < s.slen))
      ∧ ((∃ b, (CBString.read_at .throws s i).outcome = .ok b) ↔ (0 ≤ i ∧ i < s.slen)))
    ∧ ((0 ≤ i ∧ i < s.slen) →
        ∃ b, s.data[i.toNat]? = some b
          ∧ (CBString.character_const .throws s i).outcome = .ok b
          ∧ (CBString.index_const .throws s i).outcome = .ok b
          ∧ (CBString.read_at .throws s i).outcome = .ok b)
    ∧ (¬ (0 ≤ i ∧ i < s.slen) →
        (CBString.character_const .throws s i).outcome = .thrown errIdx
          ∧ (CBString.index_const .throws s i).outcome = .thrown errIdx
          ∧ CBString.character .throws s i = .thrown errIndex
          ∧ (CBString.read_at .throws s i).outcome = .thrown errIndex) := by
  have hin : (0 ≤ i ∧ i < s.slen) →
      ∃ b, s.data[i.toNat]? = some b
        ∧ (CBString.character_const .throws s i).outcome = .ok b
        ∧ (CBString.index_const .throws s i).outcome = .ok b
        ∧ (CBString.read_at .throws s i).outcome = .ok b := by
    rintro ⟨h0, h1⟩
    obtain ⟨b, hb, hr⟩ := ret_in s i h0 h1 hd []
    refine ⟨b, hb, ?_, ?_, ?_⟩
    · rw [character_const_in .throws s i hi hn hn2 h0 h1, hr]
    · rw [CBString.index_const, character_const_in .throws s i hi hn hn2 h0 h1, hr]
    · rw [read_at_in .throws s i hi hn hn2 h0 h1, hr]
  have hout : ¬ (0 ≤ i ∧ i < s.slen) →
      (CBString.character_const .throws s i).outcome = .thrown errIdx
        ∧ (CBString.index_const .throws s i).outcome = .thrown errIdx
        ∧ CBString.character .throws s i = .thrown errIndex
        ∧ (CBString.read_at .throws s i).outcome = .thrown errIndex := by
    intro h
    have h2 : toUnsigned i ≥ toUnsigned s.slen :=
      (toUnsigned_oob_iff i s.slen hi hn hn2).mpr h
    have hc : CBString.character_const .throws s i = ⟨.thrown errIdx, s, []⟩ := by
      simp only [CBString.character_const, if_pos h2, bstringThrow]
      rfl
    refine ⟨by rw [hc], by rw [CBString.index_const, hc], ?_, ?_⟩
    · exact new_throws_out s i hi hn hn2 h
    · simp only [CBString.read_at, CBString.index, CBString.character,
        new_throws_out s i hi hn hn2 h]
  refine ⟨⟨⟨?_, ?_⟩, ⟨?_, ?_⟩⟩, hin, hout⟩
  · rintro ⟨b, hb⟩
    by_contra hc
    rw [(hout hc).1] at hb
    exact Outcome.noConfusion hb
  · intro h
    obtain ⟨b, _, hb, _⟩ := hin h
    exact ⟨b, hb⟩
  · rintro ⟨b, hb⟩
    by_contra hc
    rw [(hout hc).2.2.2] at hb
    exact Outcome.noConfusion hb
  · intro h
    obtain ⟨b, _, _, _, hb⟩ := hin h
    exact ⟨b, hb⟩

/-- Witness of C1 on the two-byte buffer "ab": index 1 is read as `b`, index
-1 raises the bounds exception. -/
theorem C1_read_succeeds_iff_in_bounds_witness :
    (∃ b, ([97, 98, 0] : List Byte)[(1 : Int).toNat]? = some b
      ∧ (CBString.character_const .throws ⟨3, 2, [97, 98, 0]⟩ 1).outcome = .ok b
      ∧ (CBString.index_const .throws ⟨3, 2, [97, 98, 0]⟩ 1).outcome = .ok b
      ∧ (CBString.read_at .throws ⟨3, 2, [97, 98, 0]⟩ 1).outcome = .ok b)
    ∧ ((CBString.character_const .throws ⟨3, 2, [97, 98, 0]⟩ (-1)).outcome = .thrown errIdx
      ∧ (CBString.index_const .throws ⟨3, 2, [97, 98, 0]⟩ (-1)).outcome = .thrown errIdx
      ∧ CBString.character .throws ⟨3, 2, [97, 98, 0]⟩ (-1) = .thrown errIndex
      ∧ (CBString.read_at .throws ⟨3, 2, [97, 98, 0]⟩ (-1)).outcome = .thrown errIndex) :=
  ⟨(C1_read_succeeds_iff_in_bounds ⟨3, 2, [97, 98, 0]⟩ 1
      (by decide) (by decide) (by decide) (by decide)).2.1 (by decide),
   (C1_read_succeeds_iff_in_bounds ⟨3, 2, [97, 98, 0]⟩ (-1)
      (by decide) (by decide) (by decide) (by decide)).2.2 (by decide)⟩

/-! ## Assignment to a write-protected buffer -/

theorem ret_s (s : tagbstring) (off : Int) (tr : List Access) : (s.ret off tr).s = s := by
  unfold tagbstring.ret
  split <;> rfl

theorem ret_trace (s : tagbstring) (off : Int) (tr : List Access) :
    (s.ret off tr).trace = tr ++ [.read off] := by
  unfold tagbstring.ret
  split <;> rfl

theorem assign_char_protected_throws (a : CBCharWriteProtected) (s : tagbstring) (c : Byte)
    (h : s.mlen ≤ 0) :
    a.assign_char .throws s c = ⟨.thrown errWrite, s, []⟩ := by
  simp only [CBCharWriteProtected.assign_char, if_pos h, bstringThrow]
  rfl

theorem assign_uchar_protected_throws (a : CBCharWriteProtected) (s : tagbstring) (c : Byte)
    (h : s.mlen ≤ 0) :
    a.assign_uchar .throws s c = ⟨.thrown errWrite, s, []⟩ := by
  simp only [CBCharWriteProtected.assign_uchar, if_pos h, bstringThrow]
  rfl

theorem assign_char_protected_silent (a : CBCharWriteProtected) (s : tagbstring) (c : Byte)
    (h : s.mlen ≤ 0) :
    a.assign_char .doesntThrow s c = s.ret a.idx [] := by
  simp only [CBCharWriteProtected.assign_char, if_pos h, bstringThrow]

theorem assign_uchar_protected_silent (a : CBCharWriteProtected) (s : tagbstring) (c : Byte)
    (h : s.mlen ≤ 0) :
    a.assign_uchar .doesntThrow s c = s.ret a.idx [] := by
  simp only [CBCharWriteProtected.assign_uchar, if_pos h, bstringThrow]

theorem new_cases (p : Policy) (s : tagbstring) (i : Int) :
    CBCharWriteProtected.new p s i = .ok ⟨toUnsigned i⟩
      ∨ ∃ e, CBCharWriteProtected.new p s i = .thrown e := by
  cases p
  · simp only [CBCharWriteProtected.new, bstringThrow]
    split
    · exact Or.inr ⟨_, rfl⟩
    · exact Or.inl rfl
  · exact Or.inl (new_doesntThrow s i)

theorem mlen_of_protected (s : CBString) (h : s.iswriteprotected = true) : s.mlen ≤ 0 := by
  simpa [CBString.iswriteprotected] using h

/-- The buffer and the absence of stores after `s[i] = c` on a protected buffer. -/
theorem assign_protected_frame (p : Policy) (s : CBString) (i : Int) (c : Byte)
    (h : s.mlen ≤ 0) :
    ((s.assign_at_char p i c).s = s ∧ ∀ a ∈ (s.assign_at_char p i c).trace, a.isWrite = false)
    ∧ ((s.assign_at_uchar p i c).s = s
      ∧ ∀ a ∈ (s.assign_at_uchar p i c).trace, a.isWrite = false) := by
  rcases new_cases p s i with hn | ⟨e, hn⟩
  · cases p
    · simp [CBString.assign_at_char, CBString.assign_at_uchar, CBString.index,
        CBString.character, hn, assign_char_protected_throws _ s c h,
        assign_uchar_protected_throws _ s c h]
    · simp [CBString.assign_at_char, CBString.assign_at_uchar, CBString.index,
        CBString.character, hn, assign_char_protected_silent _ s c h,
        assign_uchar_protected_silent _ s c h, ret_s, ret_trace, Access.isWrite]
  · simp [CBString.assign_at_char, CBString.assign_at_uchar, CBString.index,
      CBString.character, hn]

/-- C2: on a write-protected buffer (`iswriteprotected ()`, that is `mlen <= 0`)
the assignment `s[i] = c`, through either overload, leaves the buffer as it
was under both policies (same `data`, `slen` and `mlen`, and no store to
`data` is made), for every index `i`; under the fail-fast policy with `i` in
bounds it raises the write-protection exception. -/
theorem C2_protected_assignment_fails (s : CBString) (i : Int) (c : Byte)
    (hwp : s.iswriteprotected = true) :
    (∀ p : Policy,
      ((s.assign_at_char p i c).s = s
        ∧ ∀ a ∈ (s.assign_at_char p i c).trace, a.isWrite = false)
      ∧ ((s.assign_at_uchar p i c).s = s
        ∧ ∀ a ∈ (s.assign_at_uchar p i c).trace, a.isWrite = false))
    ∧ (isInt i → 0 ≤ s.slen → isInt s.slen → 0 ≤ i → i < s.slen →
        (s.assign_at_char .throws i c).outcome = .thrown errWrite
        ∧ (s.assign_at_uchar .throws i c).outcome = .thrown errWrite) := by
  have h := mlen_of_protected s hwp
  refine ⟨fun p => assign_protected_frame p s i c h, ?_⟩
  intro hi hn hn2 h0 h1
  simp only [CBString.assign_at_char, CBString.assign_at_uchar, CBString.index,
    CBString.character, new_in .throws s i hi hn hn2 h0 h1,
    assign_char_protected_throws _ s c h, assign_uchar_protected_throws _ s c h,
    and_self]

/-- Witness of C2 on the protected one-byte buffer "a" assigned at index 0. -/
theorem C2_protected_assignment_fails_witness :
    (∀ p : Policy,
      ((CBString.assign_at_char p ⟨-1, 1, [97, 0]⟩ 0 120).s = ⟨-1, 1, [97, 0]⟩
        ∧ ∀ a ∈ (CBString.assign_at_char p ⟨-1, 1, [97, 0]⟩ 0 120).trace, a.isWrite = false)
      ∧ ((CBString.assign_at_uchar p ⟨-1, 1, [97, 0]⟩ 0 120).s = ⟨-1, 1, [97, 0]⟩
        ∧ ∀ a ∈ (CBString.assign_at_uchar p ⟨-1, 1, [97, 0]⟩ 0 120).trace,
            a.isWrite = false))
    ∧ ((CBString.assign_at_char .throws ⟨-1, 1, [97, 0]⟩ 0 120).outcome = .thrown errWrite
      ∧ (CBString.assign_at_uchar .throws ⟨-1, 1, [97, 0]⟩ 0 120).outcome
          = .thrown errWrite) :=
  ⟨(C2_protected_assignment_fails ⟨-1, 1, [97, 0]⟩ 0 120 (by decide)).1,
   (C2_protected_assignment_fails ⟨-1, 1, [97, 0]⟩ 0 120 (by decide)).2
     (by decide) (by decide) (by decide) (by decide) (by decide)⟩

/-- C3, the claim refuted: under the fail-silent policy the assignment
`s[0] = 'x'` on the protected one-byte buffer "a" returns the stored byte 97,
not the null byte. -/
theorem C3_counterexample :
    CBString.iswriteprotected ⟨-1, 1, [97, 0]⟩ = true
    ∧ (CBString.assign_at_char .doesntThrow ⟨-1, 1, [97, 0]⟩ 0 120).outcome = .ok 97
    ∧ (CBString.assign_at_uchar .doesntThrow ⟨-1, 1, [97, 0]⟩ 0 120).outcome = .ok 97
    ∧ (CBString.assign_at_char .doesntThrow ⟨-1, 1, [97, 0]⟩ 0 120).outcome ≠ .ok 0
    ∧ (CBString.assign_at_uchar .doesntThrow ⟨-1, 1, [97, 0]⟩ 0 120).outcome ≠ .ok 0 := by
  decide

/-- C3 as amended: under the fail-silent policy, on a write-protected buffer
and for every in-bounds `i`, the assignment `s[i] = c` (either overload)
returns the byte stored at `i`, whatever `c` is, and the buffer is unchanged;
the value returned is the null byte exactly when the stored byte is. -/
theorem C3_protected_silent_returns_stored (s : CBString) (i : Int) (c : Byte)
    (hwp : s.iswriteprotected = true) (hi : isInt i)
    (h0 : 0 ≤ i) (h1 : i < s.slen) (hd : s.slen ≤ s.data.length) :
    ∃ b, s.data[i.toNat]? = some b
      ∧ s.assign_at_char .doesntThrow i c = ⟨.ok b, s, [.read i]⟩
      ∧ s.assign_at_uchar .doesntThrow i c = ⟨.ok b, s, [.read i]⟩
      ∧ ((s.assign_at_char .doesntThrow i c).outcome = .ok 0 ↔ b = 0) := by
  have h := mlen_of_protected s hwp
  obtain ⟨b, hb, hr⟩ := ret_in s i h0 h1 hd []
  have hc : s.assign_at_char .doesntThrow i c = ⟨.ok b, s, [.read i]⟩ := by
    simp only [CBString.assign_at_char, CBString.index, CBString.character,
      new_doesntThrow, assign_char_protected_silent _ s c h, toUnsigned_cast i hi h0, hr,
      List.nil_append]
  refine ⟨b, hb, hc, ?_, ?_⟩
  · simp only [CBString.assign_at_uchar, CBString.index, CBString.character,
      new_doesntThrow, assign_uchar_protected_silent _ s c h, toUnsigned_cast i hi h0, hr,
      List.nil_append]
  · rw [hc]
    constructor
    · intro e
      exact Outcome.ok.inj e
    · intro e
      rw [e]

/-- Witness of the amended C3 on the protected buffer "a". -/
theorem C3_protected_silent_returns_stored_witness :
    ∃ b, ([97, 0] : List Byte)[(0 : Int).toNat]? = some b
      ∧ CBString.assign_at_char .doesntThrow ⟨-1, 1, [97, 0]⟩ 0 120
          = ⟨.ok b, ⟨-1, 1, [97, 0]⟩, [.read 0]⟩
      ∧ CBString.assign_at_uchar .doesntThrow ⟨-1, 1, [97, 0]⟩ 0 120
          = ⟨.ok b, ⟨-1, 1, [97, 0]⟩, [.read 0]⟩
      ∧ ((CBString.assign_at_char .doesntThrow ⟨-1, 1, [97, 0]⟩ 0 120).outcome = .ok 0
          ↔ b = 0) :=
  C3_protected_silent_returns_stored ⟨-1, 1, [97, 0]⟩ 0 120
    (by decide) (by decide) (by decide) (by decide) (by decide)

/-- C4: under the fail-fast policy, on a write-protected buffer of length
`n >= 0`, `s[i] = c` with `i` out of bounds (negative or `>= n`) raises the
bounds exception of the proxy constructor, which is not the write-protection
exception; and whenever `s[j] = c` raises the write-protection exception, `j`
is in bounds. (The proof does not use the protection: the constructor runs
before `mlen` is looked at.) -/
theorem C4_bounds_error_before_write_protection (s : CBString) (i : Int) (c : Byte)
    (_hwp : s.iswriteprotected = true) (hi : isInt i) (hn : 0 ≤ s.slen)
    (hn2 : isInt s.slen) (hout : i < 0 ∨ s.slen ≤ i) :
    ((s.assign_at_char .throws i c).outcome = .thrown errIndex
      ∧ (s.assign_at_uchar .throws i c).outcome = .thrown errIndex
      ∧ (s.assign_at_char .throws i c).outcome ≠ .thrown errWrite
      ∧ (s.assign_at_uchar .throws i c).outcome ≠ .thrown errWrite)
    ∧ ∀ j : Int, isInt j →
        ((s.assign_at_char .throws j c).outcome = .thrown errWrite
          ∨ (s.assign_at_uchar .throws j c).outcome = .thrown errWrite) →
        0 ≤ j ∧ j < s.slen := by
  have hne : Outcome.thrown errIndex ≠ (Outcome.thrown errWrite : Outcome Byte) := by
    decide
  have key : ∀ j : Int, isInt j → ¬ (0 ≤ j ∧ j < s.slen) →
      (s.assign_at_char .throws j c).outcome = .thrown errIndex
      ∧ (s.assign_at_uchar .throws j c).outcome = .thrown errIndex := by
    intro j hj h
    simp only [CBString.assign_at_char, CBString.assign_at_uchar, CBString.index,
      CBString.character, new_throws_out s j hj hn hn2 h, and_self]
  have hi2 : ¬ (0 ≤ i ∧ i < s.slen) := by omega
  obtain ⟨k1, k2⟩ := key i hi hi2
  refine ⟨⟨k1, k2, by rw [k1]; exact hne, by rw [k2]; exact hne⟩, ?_⟩
  intro j hj hw
  by_contra hc
  obtain ⟨m1, m2⟩ := key j hj hc
  rcases hw with hw | hw
  · rw [m1] at hw; exact hne hw
  · rw [m2] at hw; exact hne hw

/-- Witness of C4 on the protected buffer "a" assigned at index 1. -/
theorem C4_bounds_error_before_write_protection_witness :
    ((CBString.assign_at_char .throws ⟨-1, 1, [97, 0]⟩ 1 120).outcome = .thrown errIndex
      ∧ (CBString.assign_at_uchar .throws ⟨-1, 1, [97, 0]⟩ 1 120).outcome = .thrown errIndex
      ∧ (CBString.assign_at_char .throws ⟨-1, 1, [97, 0]⟩ 1 120).outcome ≠ .thrown errWrite
      ∧ (CBString.assign_at_uchar .throws ⟨-1, 1, [97, 0]⟩ 1 120).outcome
          ≠ .thrown errWrite)
    ∧ ∀ j : Int, isInt j →
        ((CBString.assign_at_char .throws ⟨-1, 1, [97, 0]⟩ j 120).outcome = .thrown errWrite
          ∨ (CBString.assign_at_uchar .throws ⟨-1, 1, [97, 0]⟩ j 120).outcome
              = .thrown errWrite) →
        0 ≤ j ∧ j < 1 :=
  C4_bounds_error_before_write_protection ⟨-1, 1, [97, 0]⟩ 1 120
    (by decide) (by decide) (by decide) (by decide) (by decide)

/-! ## Assignment to a writable buffer -/

theorem silent_out_of_bounds_guard (s : CBString) (i : Int) (c : Byte)
    (hw : 0 < s.mlen) (hi : isInt i) (hn : 0 ≤ s.slen) (hn2 : isInt s.slen)
    (hout : i < 0 ∨ s.slen ≤ i) :
    s.character_const .doesntThrow i = ⟨.ok 0, s, []⟩
    ∧ s.index_const .doesntThrow i = ⟨.ok 0, s, []⟩
    ∧ s.read_at .doesntThrow i = ⟨.ok 0, s, []⟩
    ∧ s.assign_at_char .doesntThrow i c = ⟨.ok 0, s, []⟩
    ∧ s.assign_at_uchar .doesntThrow i c = ⟨.ok 0, s, []⟩ := by
  have hi2 : ¬ (0 ≤ i ∧ i < s.slen) := by omega
  have h2 : toUnsigned i ≥ toUnsigned s.slen :=
    (toUnsigned_oob_iff i s.slen hi hn hn2).mpr hi2
  have hm : ¬ (s.mlen ≤ 0) := by omega
  refine ⟨?_, ?_, ?_, ?_, ?_⟩
  · simp only [CBString.character_const, if_pos h2]
  · simp only [CBString.index_const, CBString.character_const, if_pos h2]
  · simp only [CBString.read_at, CBString.index, CBString.character, new_doesntThrow,
      CBCharWriteProtected.to_uchar, true_and, if_pos h2]
  · simp only [CBString.assign_at_char, CBString.index, CBString.character,
      new_doesntThrow, CBCharWriteProtected.assign_char, if_neg hm, true_and, if_pos h2]
  · simp only [CBString.assign_at_uchar, CBString.index, CBString.character,
      new_doesntThrow, CBCharWriteProtected.assign_uchar, if_neg hm, true_and, if_pos h2]

/-- C5: under the fail-silent policy, on a writable buffer of length
`n >= 0` and for an out-of-bounds `i` (negative or `>= n`), the const read, the
read through the proxy and both assignments return the null byte, make no
access to `data` and leave the buffer (`data`, `slen`, `mlen`) as it was. -/
theorem C5_silent_out_of_bounds_yields_null (s : CBString) (i : Int) (c : Byte)
    (hw : 0 < s.mlen) (hi : isInt i) (hn : 0 ≤ s.slen) (hn2 : isInt s.slen)
    (hout : i < 0 ∨ s.slen ≤ i) :
    s.character_const .doesntThrow i = ⟨.ok 0, s, []⟩
    ∧ s.index_const .doesntThrow i = ⟨.ok 0, s, []⟩
    ∧ s.read_at .doesntThrow i = ⟨.ok 0, s, []⟩
    ∧ s.assign_at_char .doesntThrow i c = ⟨.ok 0, s, []⟩
    ∧ s.assign_at_uchar .doesntThrow i c = ⟨.ok 0, s, []⟩ :=
  silent_out_of_bounds_guard s i c hw hi hn hn2 hout

/-- Witness of C5 on the writable buffer "a" at index -1. -/
theorem C5_silent_out_of_bounds_yields_null_witness :
    CBString.character_const .doesntThrow ⟨2, 1, [97, 0]⟩ (-1) = ⟨.ok 0, ⟨2, 1, [97, 0]⟩, []⟩
    ∧ CBString.index_const .doesntThrow ⟨2, 1, [97, 0]⟩ (-1) = ⟨.ok 0, ⟨2, 1, [97, 0]⟩, []⟩
    ∧ CBString.read_at .doesntThrow ⟨2, 1, [97, 0]⟩ (-1) = ⟨.ok 0, ⟨2, 1, [97, 0]⟩, []⟩
    ∧ CBString.assign_at_char .doesntThrow ⟨2, 1, [97, 0]⟩ (-1) 120
        = ⟨.ok 0, ⟨2, 1, [97, 0]⟩, []⟩
    ∧ CBString.assign_at_uchar .doesntThrow ⟨2, 1, [97, 0]⟩ (-1) 120
        = ⟨.ok 0, ⟨2, 1, [97, 0]⟩, []⟩ :=
  C5_silent_out_of_bounds_yields_null ⟨2, 1, [97, 0]⟩ (-1) 120
    (by decide) (by decide) (by decide) (by decide) (by decide)

theorem assign_writable_in (p : Policy) (s : CBString) (i : Int) (c : Byte)
    (hw : 0 < s.mlen) (hi : isInt i) (hn2 : isInt s.slen)
    (h0 : 0 ≤ i) (h1 : i < s.slen) (hd : s.slen ≤ s.data.length) :
    s.assign_at_char p i c
        = ⟨.ok c, { s with data := s.data.set i.toNat c }, [.write i, .read i]⟩
    ∧ s.assign_at_uchar p i c
        = ⟨.ok c, { s with data := s.data.set i.toNat c }, [.write i, .read i]⟩ := by
  have hn : 0 ≤ s.slen := by omega
  have h := toUnsigned_oob_iff i s.slen hi hn hn2
  have h2 : ¬ (toUnsigned i ≥ toUnsigned s.slen) := by
    intro hc; exact (h.mp hc) ⟨h0, h1⟩
  have h3 : ¬ (p = Policy.doesntThrow ∧ toUnsigned i ≥ toUnsigned s.slen) :=
    fun hc => h2 hc.2
  have hm : ¬ (s.mlen ≤ 0) := by omega
  have hcast := toUnsigned_cast i hi h0
  have hnat : toUnsigned i = i.toNat := by omega
  have hlt : i.toNat < s.data.length := by omega
  have hst : s.store i.toNat c = some { s with data := s.data.set i.toNat c } := by
    simp only [tagbstring.store, if_pos hlt]
  have hld : ({ s with data := s.data.set i.toNat c } : tagbstring).load i = some c := by
    have hneg : ¬ (i < 0) := by omega
    simp [tagbstring.load, hneg, List.getElem?_set_self, hlt]
  constructor
  · simp only [CBString.assign_at_char, CBString.index, CBString.character,
      new_in p s i hi hn hn2 h0 h1, CBCharWriteProtected.assign_char, if_neg hm, if_neg h3,
      hcast]
    rw [hnat, hst]
    simp only [tagbstring.ret, hld, List.singleton_append]
  · simp only [CBString.assign_at_uchar, CBString.index, CBString.character,
      new_in p s i hi hn hn2 h0 h1, CBCharWriteProtected.assign_uchar, if_neg hm, if_neg h3,
      hcast]
    rw [hnat, hst]
    simp only [tagbstring.ret, hld, List.singleton_append]

/-- C6: on a writable buffer (`mlen > 0`) of length `n`, for `0 <= i < n` and
under both policies, `s[i] = c` (either overload) returns `c`; in the buffer
afterwards a read of `s[i]` returns `c`, every byte at an offset other than `i`
is what it was, and `slen`, `mlen` and the size of the block are unchanged, so
that `slen <= mlen` is preserved. -/
theorem C6_writable_assignment_frame (p : Policy) (s : CBString) (i : Int) (c : Byte)
    (hw : 0 < s.mlen) (hi : isInt i) (hn2 : isInt s.slen)
    (h0 : 0 ≤ i) (h1 : i < s.slen) (hd : s.slen ≤ s.data.length) :
    (s.assign_at_char p i c).outcome = .ok c
    ∧ (s.assign_at_uchar p i c).outcome = .ok c
    ∧ (s.assign_at_uchar p i c).s = (s.assign_at_char p i c).s
    ∧ (CBString.character_const p (s.assign_at_char p i c).s i).outcome = .ok c
    ∧ (CBString.read_at p (s.assign_at_char p i c).s i).outcome = .ok c
    ∧ (∀ j : Nat, (j : Int) ≠ i → (s.assign_at_char p i c).s.data[j]? = s.data[j]?)
    ∧ (s.assign_at_char p i c).s.data.length = s.data.length
    ∧ (s.assign_at_char p i c).s.slen = s.slen
    ∧ (s.assign_at_char p i c).s.mlen = s.mlen
    ∧ (s.slen ≤ s.mlen → (s.assign_at_char p i c).s.slen ≤ (s.assign_at_char p i c).s.mlen) := by
  obtain ⟨e1, e2⟩ := assign_writable_in p s i c hw hi hn2 h0 h1 hd
  have hn : 0 ≤ s.slen := by omega
  have hlt : i.toNat < s.data.length := by omega
  have hd2 : ({ s with data := s.data.set i.toNat c } : tagbstring).slen
      ≤ (({ s with data := s.data.set i.toNat c } : tagbstring).data.length : Int) := by
    simpa using hd
  have hrd : ({ s with data := s.data.set i.toNat c } : tagbstring).ret i []
      = ⟨.ok c, { s with data := s.data.set i.toNat c }, [.read i]⟩ := by
    obtain ⟨b, hb, hr⟩ := ret_in { s with data := s.data.set i.toNat c } i h0 h1 hd2 []
    have hbc : b = c := by
      have : (s.data.set i.toNat c)[i.toNat]? = some c := by
        simp [List.getElem?_set_self, hlt]
      have hb2 : (s.data.set i.toNat c)[i.toNat]? = some b := hb
      rw [this] at hb2
      exact (Option.some.inj hb2).symm
    rw [hr, hbc]
    rfl
  rw [e1, e2]
  refine ⟨rfl, rfl, rfl, ?_, ?_, ?_, ?_, rfl, rfl, fun h => h⟩
  · have e := character_const_in p { s with data := s.data.set i.toNat c } i hi hn hn2 h0 h1
    show (CBString.character_const p { s with data := s.data.set i.toNat c } i).outcome = _
    rw [e, hrd]
  · have e := read_at_in p { s with data := s.data.set i.toNat c } i hi hn hn2 h0 h1
    show (CBString.read_at p { s with data := s.data.set i.toNat c } i).outcome = _
    rw [e, hrd]
  · intro j hj
    have hne : i.toNat ≠ j := by omega
    simp [List.getElem?_set_ne hne]
  · simp

/-- Witness of C6 on the writable buffer "ab" assigned at index 1. -/
theorem C6_writable_assignment_frame_witness :
    (CBString.assign_at_char .doesntThrow ⟨3, 2, [97, 98, 0]⟩ 1 120).outcome = .ok 120
    ∧ (CBString.assign_at_uchar .doesntThrow ⟨3, 2, [97, 98, 0]⟩ 1 120).outcome = .ok 120
    ∧ (CBString.assign_at_uchar .doesntThrow ⟨3, 2, [97, 98, 0]⟩ 1 120).s
        = (CBString.assign_at_char .doesntThrow ⟨3, 2, [97, 98, 0]⟩ 1 120).s
    ∧ (CBString.character_const .doesntThrow
        (CBString.assign_at_char .doesntThrow ⟨3, 2, [97, 98, 0]⟩ 1 120).s 1).outcome = .ok 120
    ∧ (CBString.read_at .doesntThrow
        (CBString.assign_at_char .doesntThrow ⟨3, 2, [97, 98, 0]⟩ 1 120).s 1).outcome = .ok 120
    ∧ (∀ j : Nat, (j : Int) ≠ 1 →
        (CBString.assign_at_char .doesntThrow ⟨3, 2, [97, 98, 0]⟩ 1 120).s.data[j]?
          = ([97, 98, 0] : List Byte)[j]?)
    ∧ (CBString.assign_at_char .doesntThrow ⟨3, 2, [97, 98, 0]⟩ 1 120).s.data.length
        = ([97, 98, 0] : List Byte).length
    ∧ (CBString.assign_at_char .doesntThrow ⟨3, 2, [97, 98, 0]⟩ 1 120).s.slen = 2
    ∧ (CBString.assign_at_char .doesntThrow ⟨3, 2, [97, 98, 0]⟩ 1 120).s.mlen = 3
    ∧ ((2 : Int) ≤ 3 →
        (CBString.assign_at_char .doesntThrow ⟨3, 2, [97, 98, 0]⟩ 1 120).s.slen
          ≤ (CBString.assign_at_char .doesntThrow ⟨3, 2, [97, 98, 0]⟩ 1 120).s.mlen) :=
  C6_writable_assignment_frame .doesntThrow ⟨3, 2, [97, 98, 0]⟩ 1 120
    (by decide) (by decide) (by decide) (by decide) (by decide) (by decide)

/-! ## Reads and the write-protection state -/

theorem character_const_mlen (p : Policy) (s t : CBString) (i : Int)
    (hs : t.slen = s.slen) (hdt : t.data = s.data) :
    (t.character_const p i).outcome = (s.character_const p i).outcome
    ∧ (t.character_const p i).trace = (s.character_const p i).trace := by
  simp only [CBString.character_const, tagbstring.ret, tagbstring.load, hs, hdt]
  constructor <;> repeat (first | rfl | split)

theorem read_at_mlen (p : Policy) (s t : CBString) (i : Int)
    (hs : t.slen = s.slen) (hdt : t.data = s.data) :
    (t.read_at p i).outcome = (s.read_at p i).outcome
    ∧ (t.read_at p i).trace = (s.read_at p i).trace := by
  simp only [CBString.read_at, CBString.index, CBString.character, CBCharWriteProtected.new,
    CBCharWriteProtected.to_uchar, tagbstring.ret, tagbstring.load, hs, hdt]
  constructor <;> repeat (first | rfl | split)

/-- C7: the read operations do not look at `mlen`. If `t` is `s` after
write-protection (`mlen <= 0`, `data` and `slen` kept), then `length ()` and
the byte reads `s[i]` (const `character (i)`, const `operator []` and the read
through the proxy) give on `t` the outcome they give on `s`, value or
exception, with the same accesses to `data`; an in-bounds read of `t` returns
the stored byte, which is neither the write-protection exception nor, for a
non-zero stored byte, the null byte. -/
theorem C7_reads_ignore_write_protection (p : Policy) (s t : CBString) (i : Int)
    (_hwp : t.iswriteprotected = true) (hs : t.slen = s.slen) (hdt : t.data = s.data) :
    t.length = s.length
    ∧ (t.character_const p i).outcome = (s.character_const p i).outcome
    ∧ (t.index_const p i).outcome = (s.index_const p i).outcome
    ∧ (t.read_at p i).outcome = (s.read_at p i).outcome
    ∧ (t.character_const p i).trace = (s.character_const p i).trace
    ∧ (t.read_at p i).trace = (s.read_at p i).trace
    ∧ (isInt i → isInt s.slen → 0 ≤ i → i < s.slen → s.slen ≤ s.data.length →
        ∃ b, s.data[i.toNat]? = some b
          ∧ (t.character_const p i).outcome = .ok b
          ∧ (t.read_at p i).outcome = .ok b
          ∧ (t.character_const p i).outcome ≠ .thrown errWrite
          ∧ (t.read_at p i).outcome ≠ .thrown errWrite
          ∧ (b ≠ 0 → (t.character_const p i).outcome ≠ .ok 0
              ∧ (t.read_at p i).outcome ≠ .ok 0)) := by
  obtain ⟨c1, c2⟩ := character_const_mlen p s t i hs hdt
  obtain ⟨r1, r2⟩ := read_at_mlen p s t i hs hdt
  refine ⟨hs, c1, c1, r1, c2, r2, ?_⟩
  intro hi hn2 h0 h1 hd
  have hn : 0 ≤ s.slen := by omega
  obtain ⟨b, hb, hr⟩ := ret_in s i h0 h1 hd []
  have e1 : (t.character_const p i).outcome = .ok b := by
    rw [c1, character_const_in p s i hi hn hn2 h0 h1, hr]
  have e2 : (t.read_at p i).outcome = .ok b := by
    rw [r1, read_at_in p s i hi hn hn2 h0 h1, hr]
  refine ⟨b, hb, e1, e2, ?_, ?_, ?_⟩
  · rw [e1]; exact fun h => Outcome.noConfusion h
  · rw [e2]; exact fun h => Outcome.noConfusion h
  · intro hb0
    rw [e1, e2]
    exact ⟨fun h => hb0 (Outcome.ok.inj h), fun h => hb0 (Outcome.ok.inj h)⟩

/-- Witness of C7: the writable buffer "ab" and its write-protected state,
read at index 1. -/
theorem C7_reads_ignore_write_protection_witness :
    CBString.length ⟨-1, 2, [97, 98, 0]⟩ = CBString.length ⟨3, 2, [97, 98, 0]⟩
    ∧ (CBString.character_const .throws ⟨-1, 2, [97, 98, 0]⟩ 1).outcome
        = (CBString.character_const .throws ⟨3, 2, [97, 98, 0]⟩ 1).outcome
    ∧ (CBString.index_const .throws ⟨-1, 2, [97, 98, 0]⟩ 1).outcome
        = (CBString.index_const .throws ⟨3, 2, [97, 98, 0]⟩ 1).outcome
    ∧ (CBString.read_at .throws ⟨-1, 2, [97, 98, 0]⟩ 1).outcome
        = (CBString.read_at .throws ⟨3, 2, [97, 98, 0]⟩ 1).outcome
    ∧ (CBString.character_const .throws ⟨-1, 2, [97, 98, 0]⟩ 1).trace
        = (CBString.character_const .throws ⟨3, 2, [97, 98, 0]⟩ 1).trace
    ∧ (CBString.read_at .throws ⟨-1, 2, [97, 98, 0]⟩ 1).trace
        = (CBString.read_at .throws ⟨3, 2, [97, 98, 0]⟩ 1).trace
    ∧ ∃ b, ([97, 98, 0] : List Byte)[(1 : Int).toNat]? = some b
        ∧ (CBString.character_const .throws ⟨-1, 2, [97, 98, 0]⟩ 1).outcome = .ok b
        ∧ (CBString.read_at .throws ⟨-1, 2, [97, 98, 0]⟩ 1).outcome = .ok b
        ∧ (CBString.character_const .throws ⟨-1, 2, [97, 98, 0]⟩ 1).outcome
            ≠ .thrown errWrite
        ∧ (CBString.read_at .throws ⟨-1, 2, [97, 98, 0]⟩ 1).outcome ≠ .thrown errWrite
        ∧ (b ≠ 0 → (CBString.character_const .throws ⟨-1, 2, [97, 98, 0]⟩ 1).outcome ≠ .ok 0
            ∧ (CBString.read_at .throws ⟨-1, 2, [97, 98, 0]⟩ 1).outcome ≠ .ok 0) :=
  have h := C7_reads_ignore_write_protection .throws ⟨3, 2, [97, 98, 0]⟩ ⟨-1, 2, [97, 98, 0]⟩ 1
    (by decide) rfl rfl
  ⟨h.1, h.2.1, h.2.2.1, h.2.2.2.1, h.2.2.2.2.1, h.2.2.2.2.2.1,
    h.2.2.2.2.2.2 (by decide) (by decide) (by decide) (by decide) (by decide)⟩

/-! ## Offsets reached under the fail-silent policy -/

/-- The guarded paths: under the fail-silent policy the const read, the
conversion of the proxy and the assignment to a writable buffer index `data`
only at offsets in `[0, slen)`. -/
theorem silent_guarded_paths_withinLength (s : CBString) (i : Int) (c : Byte)
    (hi : isInt i) (hn : 0 ≤ s.slen) (hn2 : isInt s.slen) :
    (s.character_const .doesntThrow i).withinLength s.slen
    ∧ (s.read_at .doesntThrow i).withinLength s.slen
    ∧ (0 < s.mlen → (s.assign_at_char .doesntThrow i c).withinLength s.slen
        ∧ (s.assign_at_uchar .doesntThrow i c).withinLength s.slen) := by
  by_cases hb : 0 ≤ i ∧ i < s.slen
  · obtain ⟨h0, h1⟩ := hb
    have h2 : ¬ (toUnsigned i ≥ toUnsigned s.slen) := by
      intro hc; exact ((toUnsigned_oob_iff i s.slen hi hn hn2).mp hc) ⟨h0, h1⟩
    have hm : ∀ a : Access, a = .read i ∨ a = .write i → 0 ≤ a.off ∧ a.off < s.slen := by
      rintro a (rfl | rfl) <;> exact ⟨h0, h1⟩
    refine ⟨?_, ?_, ?_⟩
    · intro a ha
      rw [character_const_in _ s i hi hn hn2 h0 h1, ret_trace] at ha
      exact hm a (Or.inl (by simpa using ha))
    · intro a ha
      rw [read_at_in _ s i hi hn hn2 h0 h1, ret_trace] at ha
      exact hm a (Or.inl (by simpa using ha))
    · intro hw
      have hcast := toUnsigned_cast i hi h0
      have hmw : ¬ (s.mlen ≤ 0) := by omega
      constructor
      · intro a ha
        simp only [CBString.assign_at_char, CBString.index, CBString.character,
          new_doesntThrow, CBCharWriteProtected.assign_char, if_neg hmw, true_and, if_neg h2,
          hcast] at ha
        cases hst : tagbstring.store s (toUnsigned i) c with
        | none =>
          rw [hst] at ha
          exact hm a (Or.inr (List.mem_singleton.mp ha))
        | some s1 =>
          rw [hst] at ha
          simp only [ret_trace, List.singleton_append, List.mem_cons, List.mem_singleton,
            List.not_mem_nil, or_false] at ha
          exact hm a ha.symm
      · intro a ha
        simp only [CBString.assign_at_uchar, CBString.index, CBString.character,
          new_doesntThrow, CBCharWriteProtected.assign_uchar, if_neg hmw, true_and, if_neg h2,
          hcast] at ha
        cases hst : tagbstring.store s (toUnsigned i) c with
        | none =>
          rw [hst] at ha
          exact hm a (Or.inr (List.mem_singleton.mp ha))
        | some s1 =>
          rw [hst] at ha
          simp only [ret_trace, List.singleton_append, List.mem_cons, List.mem_singleton,
            List.not_mem_nil, or_false] at ha
          exact hm a ha.symm
  · have hout : i < 0 ∨ s.slen ≤ i := by omega
    have h2 : toUnsigned i ≥ toUnsigned s.slen :=
      (toUnsigned_oob_iff i s.slen hi hn hn2).mpr hb
    refine ⟨?_, ?_, ?_⟩
    · intro a ha
      simp [CBString.character_const, if_pos h2] at ha
    · intro a ha
      simp [CBString.read_at, CBString.index, CBString.character, new_doesntThrow,
        CBCharWriteProtected.to_uchar, h2] at ha
    · intro hw
      obtain ⟨_, _, _, e1, e2⟩ :=
        silent_out_of_bounds_guard s i c hw hi hn hn2 hout
      rw [Run.withinLength, Run.withinLength, e1, e2]
      simp

/-- C9, the claim checked at the failing input: under the fail-silent policy,
on the write-protected one-byte buffer "a" (`slen = 1`, block of two bytes),
`s[5] = 'x'` loads `data[5]`, outside the block; `s[1] = 'x'` loads `data[1]`,
the terminator, and `s[-1] = 'x'` loads `data[4294967295]`: offsets that are
not in `[0, slen)`. Both overloads behave so. -/
theorem C9_protected_silent_reads_past_length :
    CBString.iswriteprotected ⟨-1, 1, [97, 0]⟩ = true
    ∧ CBString.assign_at_char .doesntThrow ⟨-1, 1, [97, 0]⟩ 5 120
        = ⟨.fault, ⟨-1, 1, [97, 0]⟩, [.read 5]⟩
    ∧ CBString.assign_at_uchar .doesntThrow ⟨-1, 1, [97, 0]⟩ 5 120
        = ⟨.fault, ⟨-1, 1, [97, 0]⟩, [.read 5]⟩
    ∧ CBString.assign_at_char .doesntThrow ⟨-1, 1, [97, 0]⟩ 1 120
        = ⟨.ok 0, ⟨-1, 1, [97, 0]⟩, [.read 1]⟩
    ∧ CBString.assign_at_char .doesntThrow ⟨-1, 1, [97, 0]⟩ (-1) 120
        = ⟨.fault, ⟨-1, 1, [97, 0]⟩, [.read 4294967295]⟩
    ∧ ¬ (CBString.assign_at_char .doesntThrow ⟨-1, 1, [97, 0]⟩ 5 120).withinLength 1
    ∧ ¬ (CBString.assign_at_uchar .doesntThrow ⟨-1, 1, [97, 0]⟩ 5 120).withinLength 1
    ∧ ¬ (CBString.assign_at_char .doesntThrow ⟨-1, 1, [97, 0]⟩ 1 120).withinLength 1
    ∧ ¬ (CBString.assign_at_char .doesntThrow ⟨-1, 1, [97, 0]⟩ (-1) 120).withinLength 1 := by
  decide

/-! ## The hash -/

theorem cstring_append_zero (pre rest : List Byte) :
    cstring (pre ++ 0 :: rest) = some (pre.takeWhile (fun b => decide (b ≠ 0))) := by
  induction pre with
  | nil => simp [cstring]
  | cons b tl ih =>
    by_cases hb : b = 0
    · simp [cstring, hb]
    · simp [cstring, hb, ih]

theorem takeWhile_append_zero (pre rest : List Byte) :
    (pre ++ 0 :: rest).takeWhile (fun b => decide (b ≠ 0))
      = pre.takeWhile (fun b => decide (b ≠ 0)) := by
  induction pre with
  | nil => simp
  | cons b tl ih =>
    by_cases hb : b = 0
    · simp [hb]
    · simpa [List.takeWhile_cons, hb] using ih

theorem split_at_terminator (data : List Byte) (n : Nat) (h : data[n]? = some 0) :
    data = data.take n ++ 0 :: data.drop (n + 1) := by
  have hlt : n < data.length := by
    by_contra hc
    rw [List.getElem?_eq_none (by omega)] at h
    exact Option.noConfusion h
  have hget : data[n] = 0 := by
    rw [List.getElem?_eq_getElem hlt] at h
    exact Option.some.inj h
  conv_lhs => rw [← List.take_append_drop n data]
  rw [List.drop_eq_getElem_cons hlt, hget]

theorem hash_of_terminated (strHash : List Byte → Nat) (s : CBString)
    (h : s.data[s.slen.toNat]? = some 0) :
    s.hash strHash = .ok (strHash (s.bytes.takeWhile (fun b => decide (b ≠ 0))))
    ∧ s.data.takeWhile (fun b => decide (b ≠ 0))
        = s.bytes.takeWhile (fun b => decide (b ≠ 0)) := by
  have hsplit := split_at_terminator s.data s.slen.toNat h
  constructor
  · unfold CBString.hash
    rw [hsplit, cstring_append_zero]
    simp only [CBString.bytes]
  · conv_lhs => rw [hsplit]
    rw [takeWhile_append_zero]
    rfl

/-- C10: for a string whose `data` is NUL-terminated (`data[slen]` is the zero
byte), `std::hash<CBString>` returns `std::hash<std::string>` of the bytes of
`data` that precede its first zero byte. Hence two strings of equal length and
equal bytes hash equal, and two strings whose bytes agree up to their first
zero byte hash equal whatever their lengths and the bytes after that zero. -/
theorem C10_hash_of_c_string (strHash : List Byte → Nat) (s t : CBString)
    (hs : s.data[s.slen.toNat]? = some 0) (ht : t.data[t.slen.toNat]? = some 0) :
    s.hash strHash = .ok (strHash (s.data.takeWhile (fun b => decide (b ≠ 0))))
    ∧ (s.slen = t.slen → s.bytes = t.bytes → s.hash strHash = t.hash strHash)
    ∧ (s.data.takeWhile (fun b => decide (b ≠ 0)) = t.data.takeWhile (fun b => decide (b ≠ 0))
        → s.hash strHash = t.hash strHash) := by
  obtain ⟨hs1, hs2⟩ := hash_of_terminated strHash s hs
  obtain ⟨ht1, ht2⟩ := hash_of_terminated strHash t ht
  refine ⟨by rw [hs1, hs2], ?_, ?_⟩
  · intro _ hb
    rw [hs1, ht1, hb]
  · intro hb
    rw [hs1, ht1, ← hs2, ← ht2, hb]

/-- Witness of C10: the three-byte string "a\0b" and the one-byte string "a"
agree up to their first zero byte and get the same hash. -/
theorem C10_hash_of_c_string_witness :
    CBString.hash sampleHash ⟨4, 3, [97, 0, 98, 0]⟩
      = .ok (sampleHash (([97, 0, 98, 0] : List Byte).takeWhile (fun b => decide (b ≠ 0))))
    ∧ CBString.hash sampleHash ⟨4, 3, [97, 0, 98, 0]⟩ = CBString.hash sampleHash ⟨2, 1, [97, 0]⟩ :=
  have h := C10_hash_of_c_string sampleHash ⟨4, 3, [97, 0, 98, 0]⟩ ⟨2, 1, [97, 0]⟩
    (by decide) (by decide)
  ⟨h.1, h.2.2 (by decide)⟩

/-! ## Termination of the range iteration -/

theorem decodeStrict_consumed (buf : List Byte) (off : Nat) (r : Nat × Nat)
    (h : decodeStrict buf off = some r) : 1 ≤ r.2 ∧ r.2 ≤ 4 := by
  unfold decodeStrict at h
  repeat' (first | contradiction | split at h)
  all_goals
    first
    | (cases h; simp)
    | (simp at h; done)
    | (simp at h; obtain ⟨_, rfl⟩ := h; simp)
    | (simp at h; obtain ⟨_, _, rfl⟩ := h; simp)

theorem decode_consumed (errCh : Nat) (buf : List Byte) (off : Nat) :
    1 ≤ (decode errCh buf off).2 ∧ (decode errCh buf off).2 ≤ 4 := by
  unfold decode
  split
  · next r h => exact decodeStrict_consumed buf off r h
  · simp

theorem decode_violation (errCh : Nat) (buf : List Byte) (off : Nat)
    (h : decodeStrict buf off = none) : decode errCh buf off = (errCh, 1) := by
  simp only [decode, h]

theorem reaches_end_from (errCh : Nat) (s : CBString) :
    ∀ (m pos ch : Nat), pos < s.bytes.length → s.bytes.length - pos ≤ m →
      ∃ k, k ≤ m ∧ UtfForRangeIter.advanceN errCh s k (.Active pos ch) = .End := by
  intro m
  induction m with
  | zero =>
    intro pos ch h1 h2
    omega
  | succ m ih =>
    intro pos ch h1 h2
    have hc := (decode_consumed errCh s.bytes pos).1
    by_cases hend : pos + (decode errCh s.bytes pos).2 ≥ s.bytes.length
    · refine ⟨1, by omega, ?_⟩
      simp only [UtfForRangeIter.advanceN, UtfForRangeIter.advance, if_pos hend]
    · obtain ⟨k, hk, hr⟩ := ih (pos + (decode errCh s.bytes pos).2)
        (decode errCh s.bytes (pos + (decode errCh s.bytes pos).2)).1
        (by omega) (by omega)
      refine ⟨k + 1, by omega, ?_⟩
      simp only [UtfForRangeIter.advanceN, UtfForRangeIter.advance, if_neg hend]
      exact hr

/-- C8: for a string holding `n = slen` bytes, valid UTF-8 or not, the iterator
obtained from `begin ()` compares equal to `end ()` after `k` applications of
`operator ++` for some `k <= n`; for the empty string `begin ()` equals
`end ()` at once. The reason is that every decode consumes at least one byte,
a violation yielding `errCh` with a consumed length of 1. -/
theorem C8_iteration_reaches_end (errCh : Nat) (s : CBString)
    (h0 : 0 ≤ s.slen) (hd : s.slen ≤ s.data.length) :
    (∃ k : Nat, (k : Int) ≤ s.slen
      ∧ (UtfForRangeIter.advanceN errCh s k (s.begin errCh)).ne s.end_ = false)
    ∧ (s.slen = 0 → (s.begin errCh).ne s.end_ = false)
    ∧ (∀ off : Nat, 1 ≤ (decode errCh s.bytes off).2)
    ∧ (∀ off : Nat, decodeStrict s.bytes off = none → decode errCh s.bytes off = (errCh, 1)) := by
  have hlen : (s.bytes.length : Int) = s.slen := by
    simp only [CBString.bytes, List.length_take]
    omega
  have hempty : s.bytes.length = 0 → (s.begin errCh).ne s.end_ = false := by
    intro h
    simp only [CBString.begin, if_pos h, CBString.end_, UtfForRangeIter.ne]
  refine ⟨?_, ?_, fun off => (decode_consumed errCh s.bytes off).1,
    fun off h => decode_violation errCh s.bytes off h⟩
  · by_cases hz : s.bytes.length = 0
    · exact ⟨0, by omega, hempty hz⟩
    · obtain ⟨k, hk, hr⟩ := reaches_end_from errCh s s.bytes.length 0
        (decode errCh s.bytes 0).1 (by omega) (by omega)
      refine ⟨k, by omega, ?_⟩
      simp only [CBString.begin, if_neg hz, hr, CBString.end_, UtfForRangeIter.ne]
  · intro hz
    exact hempty (by omega)

/-- Witness of C8 on three bytes that are not valid UTF-8. -/
theorem C8_iteration_reaches_end_witness :
    (∃ k : Nat, (k : Int) ≤ 3
      ∧ (UtfForRangeIter.advanceN 65533 ⟨4, 3, [195, 40, 255, 0]⟩ k
          (CBString.begin 65533 ⟨4, 3, [195, 40, 255, 0]⟩)).ne
            (CBString.end_ ⟨4, 3, [195, 40, 255, 0]⟩) = false)
    ∧ ((3 : Int) = 0 → (CBString.begin 65533 ⟨4, 3, [195, 40, 255, 0]⟩).ne
        (CBString.end_ ⟨4, 3, [195, 40, 255, 0]⟩) = false)
    ∧ (∀ off : Nat, 1 ≤ (decode 65533 (CBString.bytes ⟨4, 3, [195, 40, 255, 0]⟩) off).2)
    ∧ (∀ off : Nat, decodeStrict (CBString.bytes ⟨4, 3, [195, 40, 255, 0]⟩) off = none →
        decode 65533 (CBString.bytes ⟨4, 3, [195, 40, 255, 0]⟩) off = (65533, 1)) :=
  C8_iteration_reaches_end 65533 ⟨4, 3, [195, 40, 255, 0]⟩ (by decide) (by decide)

/-! ## Evaluations on small buffers -/

theorem eval_assign_protected_silent :
    CBString.assign_at_char .doesntThrow ⟨-1, 1, [97, 0]⟩ 0 120
      = ⟨.ok 97, ⟨-1, 1, [97, 0]⟩, [.read 0]⟩ := by decide

theorem eval_assign_protected_throws :
    CBString.assign_at_char .throws ⟨-1, 1, [97, 0]⟩ 0 120
      = ⟨.thrown errWrite, ⟨-1, 1, [97, 0]⟩, []⟩ := by decide

theorem eval_assign_writable :
    CBString.assign_at_char .throws ⟨2, 1, [97, 0]⟩ 0 120
      = ⟨.ok 120, ⟨2, 1, [120, 0]⟩, [.write 0, .read 0]⟩ := by decide

theorem eval_iteration_invalid_bytes :
    CBString.begin 65533 ⟨4, 3, [195, 40, 255, 0]⟩ = .Active 0 65533
    ∧ UtfForRangeIter.advanceN 65533 ⟨4, 3, [195, 40, 255, 0]⟩ 1
        (CBString.begin 65533 ⟨4, 3, [195, 40, 255, 0]⟩) = .Active 1 40
    ∧ UtfForRangeIter.advanceN 65533 ⟨4, 3, [195, 40, 255, 0]⟩ 2
        (CBString.begin 65533 ⟨4, 3, [195, 40, 255, 0]⟩) = .Active 2 65533
    ∧ UtfForRangeIter.advanceN 65533 ⟨4, 3, [195, 40, 255, 0]⟩ 3
        (CBString.begin 65533 ⟨4, 3, [195, 40, 255, 0]⟩) = .End := by
  decide

theorem eval_iteration_cafe :
    CBString.begin 65533 ⟨6, 5, [99, 97, 102, 195, 169, 0]⟩ = .Active 0 99
    ∧ UtfForRangeIter.advanceN 65533 ⟨6, 5, [99, 97, 102, 195, 169, 0]⟩ 3
        (CBString.begin 65533 ⟨6, 5, [99, 97, 102, 195, 169, 0]⟩) = .Active 3 233
    ∧ UtfForRangeIter.advanceN 65533 ⟨6, 5, [99, 97, 102, 195, 169, 0]⟩ 4
        (CBString.begin 65533 ⟨6, 5, [99, 97, 102, 195, 169, 0]⟩) = .End := by
  decide

theorem eval_hash_embedded_zero :
    CBString.hash sampleHash ⟨4, 3, [97, 0, 98, 0]⟩ = .ok 314
    ∧ CBString.hash sampleHash ⟨2, 1, [97, 0]⟩ = .ok 314
    ∧ CBString.hash sampleHash ⟨2, 2, [97, 98]⟩ = .fault := by
  decide

theorem eval_character_const_negative :
    CBString.character_const .throws ⟨-1, 1, [97, 0]⟩ (-1)
      = ⟨.thrown errIdx, ⟨-1, 1, [97, 0]⟩, []⟩ := by decide

end Bstrlib
